import Mathlib

/-!
# Shallow embedding of the `timesheet` tool (src/main.go)

The program records timestamped start/stop events and computes worked time.
Its core is `calcWorktime` (a fold over one day's events, pairing Start/End),
and `calcWorktimeAll` (grouping events into per-date buckets and reporting
per-day totals plus an 8-hour-quota comparison).

Modelling choices:
* `time.Time` is modelled by `Time`: the calendar-date fields `year`, `month`,
  `day` (used by `isSameDay` and by the `"2006-01-02"` date formatting), and
  `abs`, the absolute instant in nanoseconds used by `Time.Sub`.
  `time.Duration` is an `Int` counting nanoseconds.
* `e.Timestamp.Format(dateFormat)` produces a fixed-width `"YYYY-MM-DD"`
  string; lexicographic order on those strings coincides with lexicographic
  order on `(year, month, day)` triples, so the date key is modelled by the
  structure `Date` ordered by `dateLe`, and Go's `sort.Strings` by
  `List.mergeSort dateLe`.
* Go's map `dayEntries` is modelled by an association list built with the
  same "lookup, append, store back" step as the source loop; since the keys
  are subsequently sorted, the unspecified map iteration order is irrelevant.
* `fmt.Println("Ignoring invalid e entry")` diagnostics are modelled by a
  `notices` counter carried in the fold state.
* `time.Now()` is passed explicitly as a `now : Time` argument.
* Display-only rounding (`Truncate(time.Minute)` at the print sites) is not
  part of the computed quantities `sum`, `expected`, `diff` in the source and
  is not modelled.
-/

/-- One nanosecond, the unit of Go's `time.Duration`. -/
def Nanosecond : Int := 1

/-- Go's `time.Second` in nanoseconds. -/
def Second : Int := 1000000000 * Nanosecond

/-- Go's `time.Minute` in nanoseconds. -/
def Minute : Int := 60 * Second

/-- Go's `time.Hour` in nanoseconds. -/
def Hour : Int := 60 * Minute

/-- Model of Go `time.Time`: local calendar date plus the absolute instant
(nanoseconds) that `Sub` operates on. -/
structure Time where
  year : Nat
  month : Nat
  day : Nat
  abs : Int
deriving DecidableEq, Repr

/-- Go `a.Sub(b)`, a `time.Duration`. -/
def Time.sub (a b : Time) : Int := a.abs - b.abs

/-- The zero value of Go `time.Time` (January 1, year 1). -/
def zeroTime : Time := ⟨1, 1, 1, 0⟩

/-- Model of the Go struct `entry`: a timestamp and a type tag
(`"s"` for start, `"e"` for end; the source does not restrict the string). -/
structure entry where
  Timestamp : Time
  type : String
deriving DecidableEq, Repr

/-- The calendar date a timestamp formats to under `dateFormat`
(`"2006-01-02"`): just the (year, month, day) triple. -/
structure Date where
  year : Nat
  month : Nat
  day : Nat
deriving DecidableEq, Repr

/-- The value `t.Format(dateFormat)` denotes, as a `Date`. -/
def dateKey (t : Time) : Date := ⟨t.year, t.month, t.day⟩

/-- Lexicographic order on dates; for the fixed-width zero-padded
`"YYYY-MM-DD"` format this is exactly the string order `sort.Strings` uses. -/
def dateLe (a b : Date) : Bool :=
  Nat.blt a.year b.year ||
    (a.year == b.year &&
      (Nat.blt a.month b.month ||
        (a.month == b.month && Nat.ble a.day b.day)))

/-- Model of Go `isSameDay`: compares day, month and year. -/
def isSameDay (a b : Time) : Bool :=
  a.day == b.day && a.month == b.month && a.year == b.year

/-- The local state of `calcWorktime`'s loop: the `working` flag, the `lastTs`
timestamp, the accumulated `worktime`, plus a counter of the
"Ignoring invalid e entry" diagnostics the loop prints. -/
structure WtState where
  working : Bool
  lastTs : Time
  worktime : Int
  notices : Nat
deriving DecidableEq, Repr

/-- The zero-initialized state at the top of `calcWorktime`. -/
def initWtState : WtState := ⟨false, zeroTime, 0, 0⟩

/-- One iteration of `calcWorktime`'s `for … switch e.Type` loop. -/
def stepWt (st : WtState) (e : entry) : WtState :=
  if e.type = "s" then
    if st.working then st
    else { st with working := true, lastTs := e.Timestamp }
  else if e.type = "e" then
    if st.working then
      { st with working := false,
                worktime := st.worktime + e.Timestamp.sub st.lastTs }
    else
      { st with notices := st.notices + 1 }
  else st

/-- Model of Go `calcWorktime(entries, today)`. `now` stands for the
`time.Now()` consulted when a trailing session is still open on the
ongoing day. -/
def calcWorktime (entries : List entry) (today : Bool) (now : Time) : Int :=
  let st := entries.foldl stepWt initWtState
  if st.working then
    if today then st.worktime + now.sub st.lastTs else 0
  else st.worktime

/-- The number of "Ignoring invalid e entry" diagnostics `calcWorktime`
prints while processing `entries`. -/
def calcNotices (entries : List entry) : Nat :=
  (entries.foldl stepWt initWtState).notices

/-- The events of a strictly alternating Start/End sequence given as the
list of its (start, end) timestamp pairs. -/
def pairEvents : List (Time × Time) → List entry
  | [] => []
  | (s, e) :: rest => ⟨s, "s"⟩ :: ⟨e, "e"⟩ :: pairEvents rest

/-- The sum over the pairs of (end timestamp − start timestamp). -/
def pairSum : List (Time × Time) → Int
  | [] => 0
  | (s, e) :: rest => (e.sub s) + pairSum rest

/-- A well-formed day per the spec: alternating Start/End pairs, optionally
followed by one trailing unmatched Start. -/
def wfEvents (ps : List (Time × Time)) (tr : Option Time) : List entry :=
  pairEvents ps ++ (match tr with
    | none => []
    | some s => [⟨s, "s"⟩])

/-- The timestamp of the last Start of an alternating pair list
(`dflt` when the list is empty): the value `lastTs` holds afterwards. -/
def lastStartOf (dflt : Time) : List (Time × Time) → Time
  | [] => dflt
  | (s, _) :: rest => lastStartOf s rest

/- ## Basic fold lemmas -/

theorem stepWt_junk (st : WtState) (e : entry)
    (hs : e.type ≠ "s") (he : e.type ≠ "e") : stepWt st e = st := by
  simp [stepWt, hs, he]

theorem stepWt_dup_start (st : WtState) (e : entry)
    (hs : e.type = "s") (hw : st.working = true) : stepWt st e = st := by
  simp [stepWt, hs, hw]

theorem stepWt_orphan_end (st : WtState) (e : entry)
    (he : e.type = "e") (hw : st.working = false) :
    stepWt st e = { st with notices := st.notices + 1 } := by
  have hs : e.type ≠ "s" := by simp [he]
  simp [stepWt, hs, he, hw]

theorem stepWt_start (l : Time) (t : Int) (n : Nat) (e : entry)
    (hs : e.type = "s") :
    stepWt ⟨false, l, t, n⟩ e = ⟨true, e.Timestamp, t, n⟩ := by
  simp [stepWt, hs]

theorem stepWt_close (l : Time) (t : Int) (n : Nat) (e : entry)
    (he : e.type = "e") :
    stepWt ⟨true, l, t, n⟩ e = ⟨false, l, t + e.Timestamp.sub l, n⟩ := by
  have hs : e.type ≠ "s" := by simp [he]
  simp [stepWt, hs, he]

theorem stepWt_orphan (l : Time) (t : Int) (n : Nat) (e : entry)
    (he : e.type = "e") :
    stepWt ⟨false, l, t, n⟩ e = ⟨false, l, t, n + 1⟩ := by
  have hs : e.type ≠ "s" := by simp [he]
  simp [stepWt, hs, he]

/-- The `working`, `lastTs` and `worktime` components of the fold do not
depend on the incoming `notices` count, and the diagnostics emitted add up. -/
theorem foldl_stepWt_notices (es : List entry) (w : Bool) (l : Time)
    (t : Int) (n : Nat) :
    es.foldl stepWt ⟨w, l, t, n⟩ =
      ⟨(es.foldl stepWt ⟨w, l, t, 0⟩).working,
       (es.foldl stepWt ⟨w, l, t, 0⟩).lastTs,
       (es.foldl stepWt ⟨w, l, t, 0⟩).worktime,
       n + (es.foldl stepWt ⟨w, l, t, 0⟩).notices⟩ := by
  induction es generalizing w l t n with
  | nil => simp
  | cons e es ih =>
    simp only [List.foldl_cons]
    by_cases hs : e.type = "s"
    · cases w with
      | true =>
        rw [stepWt_dup_start _ e hs rfl, stepWt_dup_start _ e hs rfl]
        exact ih true l t n
      | false =>
        rw [stepWt_start l t n e hs, stepWt_start l t 0 e hs]
        exact ih true e.Timestamp t n
    · by_cases he : e.type = "e"
      · cases w with
        | true =>
          rw [stepWt_close l t n e he, stepWt_close l t 0 e he]
          exact ih false l (t + e.Timestamp.sub l) n
        | false =>
          rw [stepWt_orphan l t n e he, stepWt_orphan l t 0 e he]
          rw [ih false l t (n + 1), ih false l t (0 + 1)]
          simp only [WtState.mk.injEq, true_and]
          omega
      · rw [stepWt_junk _ e hs he, stepWt_junk _ e hs he]
        exact ih w l t n

/-- Folding the loop over a strictly alternating pair sequence from a
non-working state: the state stays non-working, the worktime grows by the
pair sum, the last Start is recorded, and no diagnostic is printed. -/
theorem foldl_stepWt_pairEvents (ps : List (Time × Time)) (l : Time)
    (t : Int) (n : Nat) :
    (pairEvents ps).foldl stepWt ⟨false, l, t, n⟩ =
      ⟨false, lastStartOf l ps, t + pairSum ps, n⟩ := by
  induction ps generalizing l t with
  | nil => simp [pairEvents, lastStartOf, pairSum]
  | cons p ps ih =>
    obtain ⟨s, e⟩ := p
    simp only [pairEvents, List.foldl_cons]
    have h1 : stepWt ⟨false, l, t, n⟩ ⟨s, "s"⟩ = ⟨true, s, t, n⟩ := by
      simp [stepWt]
    have h2 : stepWt ⟨true, s, t, n⟩ ⟨e, "e"⟩ =
        ⟨false, s, t + Time.sub e s, n⟩ := by
      simp [stepWt]
    rw [h1, h2, ih]
    simp [lastStartOf, pairSum]
    ring

/-- Folding the loop is unchanged by dropping events whose tag is neither
`"s"` nor `"e"`. -/
theorem foldl_stepWt_filter_tags (es : List entry) (st : WtState) :
    es.foldl stepWt st =
      (es.filter (fun e => e.type == "s" || e.type == "e")).foldl stepWt st := by
  induction es generalizing st with
  | nil => rfl
  | cons e es ih =>
    simp only [List.foldl_cons, List.filter_cons]
    by_cases hk : (e.type == "s" || e.type == "e") = true
    · rw [if_pos hk]
      simp only [List.foldl_cons]
      exact ih (stepWt st e)
    · rw [if_neg hk]
      have hs : e.type ≠ "s" := by
        intro h
        exact hk (by simp [h])
      have he : e.type ≠ "e" := by
        intro h
        exact hk (by simp [h])
      rw [stepWt_junk st e hs he]
      exact ih st

/-- Each pair end − start being non-negative makes the pair sum
non-negative. -/
theorem pairSum_nonneg (ps : List (Time × Time))
    (h : ∀ p ∈ ps, (p.1).abs ≤ (p.2).abs) : 0 ≤ pairSum ps := by
  induction ps with
  | nil => simp [pairSum]
  | cons p ps ih =>
    obtain ⟨s, e⟩ := p
    have h1 : s.abs ≤ e.abs := h (s, e) (List.mem_cons_self _ _)
    have h2 : 0 ≤ pairSum ps := ih fun q hq => h q (List.mem_cons_of_mem _ hq)
    simp only [pairSum, Time.sub]
    omega

/-- Running `calcWorktime` on a strictly alternating pair sequence gives the pair sum,
for either flag value. -/
theorem calcWorktime_pairEvents (ps : List (Time × Time)) (today : Bool)
    (now : Time) : calcWorktime (pairEvents ps) today now = pairSum ps := by
  unfold calcWorktime initWtState zeroTime
  rw [foldl_stepWt_pairEvents]
  simp

/-- The fold state after an alternating pair sequence followed by one
trailing Start. -/
theorem foldl_stepWt_trailing (ps : List (Time × Time)) (s : Time) :
    (pairEvents ps ++ [(⟨s, "s"⟩ : entry)]).foldl stepWt initWtState =
      ⟨true, s, pairSum ps, 0⟩ := by
  rw [List.foldl_append]
  unfold initWtState zeroTime
  rw [foldl_stepWt_pairEvents]
  simp only [List.foldl_cons, List.foldl_nil]
  rw [stepWt_start _ _ _ (⟨s, "s"⟩ : entry) rfl]
  simp

/-- C1: for every strictly alternating Start/End sequence with no trailing
open Start, `calcWorktime` returns the sum of (End − Start) over the pairs,
for either value of the ongoing-day flag; the four events 09:00 Start,
12:00 End, 13:00 Start, 17:00 End of 2024-01-01 yield 7 hours. -/
theorem C1_alternating_pairs_sum (ps : List (Time × Time)) (today : Bool)
    (now : Time) :
    calcWorktime (pairEvents ps) today now = pairSum ps ∧
    calcWorktime
      [⟨⟨2024, 1, 1, 9 * Hour⟩, "s"⟩, ⟨⟨2024, 1, 1, 12 * Hour⟩, "e"⟩,
       ⟨⟨2024, 1, 1, 13 * Hour⟩, "s"⟩, ⟨⟨2024, 1, 1, 17 * Hour⟩, "e"⟩]
      false zeroTime = 7 * Hour := by
  refine ⟨calcWorktime_pairEvents ps today now, ?_⟩
  decide

/-- C2: when processing ends with the working flag still set, the result
with the ongoing-day flag true is the accumulated sum plus (now − lastStart),
and with the flag false it is zero regardless of the completed pairs. -/
theorem C2_trailing_open_start (es : List entry) (now : Time)
    (h : (es.foldl stepWt initWtState).working = true) :
    calcWorktime es true now =
      (es.foldl stepWt initWtState).worktime +
        now.sub (es.foldl stepWt initWtState).lastTs ∧
    calcWorktime es false now = 0 := by
  constructor
  · simp [calcWorktime, h]
  · simp [calcWorktime, h]

/-- Witness for C2: a lone 09:00 Start on the ongoing day, evaluated at
09:30, yields 30 minutes; evaluated as a past day it yields zero. -/
theorem C2_trailing_open_start_witness :
    calcWorktime [⟨⟨2024, 1, 1, 9 * Hour⟩, "s"⟩] true
        ⟨2024, 1, 1, 9 * Hour + 30 * Minute⟩ =
      (([⟨⟨2024, 1, 1, 9 * Hour⟩, "s"⟩] : List entry).foldl stepWt
          initWtState).worktime +
        Time.sub ⟨2024, 1, 1, 9 * Hour + 30 * Minute⟩
          (([⟨⟨2024, 1, 1, 9 * Hour⟩, "s"⟩] : List entry).foldl stepWt
              initWtState).lastTs ∧
    calcWorktime [⟨⟨2024, 1, 1, 9 * Hour⟩, "s"⟩] false
        ⟨2024, 1, 1, 9 * Hour + 30 * Minute⟩ = 0 :=
  C2_trailing_open_start [⟨⟨2024, 1, 1, 9 * Hour⟩, "s"⟩]
    ⟨2024, 1, 1, 9 * Hour + 30 * Minute⟩ (by decide)

/-- C10: with the ongoing-day flag false, `calcWorktime` does not depend on
the current time; with the flag true it is also clock-independent unless a
trailing session is still open. -/
theorem C10_now_independent (es : List entry) (n1 n2 : Time) :
    calcWorktime es false n1 = calcWorktime es false n2 ∧
    ((es.foldl stepWt initWtState).working = false →
      calcWorktime es true n1 = calcWorktime es true n2) := by
  constructor
  · simp [calcWorktime]
  · intro h
    simp [calcWorktime, h]

/-- Witness for C10: a completed 09:00–12:00 day evaluated at two different
clocks. -/
theorem C10_now_independent_witness :
    calcWorktime [⟨⟨2024, 1, 1, 9 * Hour⟩, "s"⟩, ⟨⟨2024, 1, 1, 12 * Hour⟩, "e"⟩]
        false ⟨2024, 1, 1, 13 * Hour⟩ =
      calcWorktime [⟨⟨2024, 1, 1, 9 * Hour⟩, "s"⟩, ⟨⟨2024, 1, 1, 12 * Hour⟩, "e"⟩]
        false ⟨2024, 1, 1, 15 * Hour⟩ ∧
    ((([⟨⟨2024, 1, 1, 9 * Hour⟩, "s"⟩, ⟨⟨2024, 1, 1, 12 * Hour⟩, "e"⟩] :
          List entry).foldl stepWt initWtState).working = false →
      calcWorktime [⟨⟨2024, 1, 1, 9 * Hour⟩, "s"⟩, ⟨⟨2024, 1, 1, 12 * Hour⟩, "e"⟩]
          true ⟨2024, 1, 1, 13 * Hour⟩ =
        calcWorktime [⟨⟨2024, 1, 1, 9 * Hour⟩, "s"⟩, ⟨⟨2024, 1, 1, 12 * Hour⟩, "e"⟩]
          true ⟨2024, 1, 1, 15 * Hour⟩) :=
  C10_now_independent
    [⟨⟨2024, 1, 1, 9 * Hour⟩, "s"⟩, ⟨⟨2024, 1, 1, 12 * Hour⟩, "e"⟩]
    ⟨2024, 1, 1, 13 * Hour⟩ ⟨2024, 1, 1, 15 * Hour⟩

/-- C5: an End event met while not working leaves duration, working flag and
lastStart unchanged, emits one diagnostic, and the remaining events are
still processed: the overall result matches the sequence without it. -/
theorem C5_orphan_end_skipped (pre post : List entry) (e : entry)
    (today : Bool) (now : Time) (he : e.type = "e")
    (hw : (pre.foldl stepWt initWtState).working = false) :
    stepWt (pre.foldl stepWt initWtState) e =
      { pre.foldl stepWt initWtState with
        notices := (pre.foldl stepWt initWtState).notices + 1 } ∧
    calcWorktime (pre ++ e :: post) today now =
      calcWorktime (pre ++ post) today now ∧
    calcNotices (pre ++ e :: post) = calcNotices (pre ++ post) + 1 := by
  refine ⟨stepWt_orphan_end _ e he hw, ?_⟩
  rcases hst : pre.foldl stepWt initWtState with ⟨w, l, t, n⟩
  rw [hst] at hw
  simp only at hw
  subst hw
  have hstep : stepWt (⟨false, l, t, n⟩ : WtState) e = ⟨false, l, t, n + 1⟩ :=
    stepWt_orphan l t n e he
  constructor
  · unfold calcWorktime
    rw [List.foldl_append, List.foldl_append, hst, List.foldl_cons, hstep,
      foldl_stepWt_notices post false l t (n + 1),
      foldl_stepWt_notices post false l t n]
  · unfold calcNotices
    rw [List.foldl_append, List.foldl_append, hst, List.foldl_cons, hstep,
      foldl_stepWt_notices post false l t (n + 1),
      foldl_stepWt_notices post false l t n]
    simp only
    omega

/-- Witness for C5: an orphaned End between two complete 2024-01-01
sessions. -/
theorem C5_orphan_end_skipped_witness :
    stepWt (([⟨⟨2024, 1, 1, 9 * Hour⟩, "s"⟩, ⟨⟨2024, 1, 1, 10 * Hour⟩, "e"⟩] :
          List entry).foldl stepWt initWtState) ⟨⟨2024, 1, 1, 11 * Hour⟩, "e"⟩ =
      { ([⟨⟨2024, 1, 1, 9 * Hour⟩, "s"⟩, ⟨⟨2024, 1, 1, 10 * Hour⟩, "e"⟩] :
            List entry).foldl stepWt initWtState with
        notices := (([⟨⟨2024, 1, 1, 9 * Hour⟩, "s"⟩,
            ⟨⟨2024, 1, 1, 10 * Hour⟩, "e"⟩] :
              List entry).foldl stepWt initWtState).notices + 1 } ∧
    calcWorktime
        ([⟨⟨2024, 1, 1, 9 * Hour⟩, "s"⟩, ⟨⟨2024, 1, 1, 10 * Hour⟩, "e"⟩] ++
          ⟨⟨2024, 1, 1, 11 * Hour⟩, "e"⟩ ::
            [⟨⟨2024, 1, 1, 12 * Hour⟩, "s"⟩, ⟨⟨2024, 1, 1, 13 * Hour⟩, "e"⟩])
        false zeroTime =
      calcWorktime
        ([⟨⟨2024, 1, 1, 9 * Hour⟩, "s"⟩, ⟨⟨2024, 1, 1, 10 * Hour⟩, "e"⟩] ++
          [⟨⟨2024, 1, 1, 12 * Hour⟩, "s"⟩, ⟨⟨2024, 1, 1, 13 * Hour⟩, "e"⟩])
        false zeroTime ∧
    calcNotices
        ([⟨⟨2024, 1, 1, 9 * Hour⟩, "s"⟩, ⟨⟨2024, 1, 1, 10 * Hour⟩, "e"⟩] ++
          ⟨⟨2024, 1, 1, 11 * Hour⟩, "e"⟩ ::
            [⟨⟨2024, 1, 1, 12 * Hour⟩, "s"⟩, ⟨⟨2024, 1, 1, 13 * Hour⟩, "e"⟩]) =
      calcNotices
        ([⟨⟨2024, 1, 1, 9 * Hour⟩, "s"⟩, ⟨⟨2024, 1, 1, 10 * Hour⟩, "e"⟩] ++
          [⟨⟨2024, 1, 1, 12 * Hour⟩, "s"⟩, ⟨⟨2024, 1, 1, 13 * Hour⟩, "e"⟩]) + 1 :=
  C5_orphan_end_skipped
    [⟨⟨2024, 1, 1, 9 * Hour⟩, "s"⟩, ⟨⟨2024, 1, 1, 10 * Hour⟩, "e"⟩]
    [⟨⟨2024, 1, 1, 12 * Hour⟩, "s"⟩, ⟨⟨2024, 1, 1, 13 * Hour⟩, "e"⟩]
    ⟨⟨2024, 1, 1, 11 * Hour⟩, "e"⟩ false zeroTime rfl (by decide)

/-- C6: a duplicate Start met while already working is ignored: the state
(including lastStart) is unchanged, and the result equals that of the same
sequence with the duplicate removed. -/
theorem C6_dup_start_ignored (pre post : List entry) (e : entry)
    (today : Bool) (now : Time) (hs : e.type = "s")
    (hw : (pre.foldl stepWt initWtState).working = true) :
    stepWt (pre.foldl stepWt initWtState) e = pre.foldl stepWt initWtState ∧
    calcWorktime (pre ++ e :: post) today now =
      calcWorktime (pre ++ post) today now ∧
    calcNotices (pre ++ e :: post) = calcNotices (pre ++ post) := by
  have h1 := stepWt_dup_start _ e hs hw
  refine ⟨h1, ?_, ?_⟩
  · unfold calcWorktime
    rw [List.foldl_append, List.foldl_append, List.foldl_cons, h1]
  · unfold calcNotices
    rw [List.foldl_append, List.foldl_append, List.foldl_cons, h1]

/-- Witness for C6: a duplicate 10:00 Start inside an open 09:00–12:00
session does not change the computed 3 hours. -/
theorem C6_dup_start_ignored_witness :
    stepWt (([⟨⟨2024, 1, 1, 9 * Hour⟩, "s"⟩] : List entry).foldl stepWt
        initWtState) ⟨⟨2024, 1, 1, 10 * Hour⟩, "s"⟩ =
      ([⟨⟨2024, 1, 1, 9 * Hour⟩, "s"⟩] : List entry).foldl stepWt initWtState ∧
    calcWorktime
        ([⟨⟨2024, 1, 1, 9 * Hour⟩, "s"⟩] ++
          ⟨⟨2024, 1, 1, 10 * Hour⟩, "s"⟩ :: [⟨⟨2024, 1, 1, 12 * Hour⟩, "e"⟩])
        false zeroTime =
      calcWorktime
        ([⟨⟨2024, 1, 1, 9 * Hour⟩, "s"⟩] ++ [⟨⟨2024, 1, 1, 12 * Hour⟩, "e"⟩])
        false zeroTime ∧
    calcNotices
        ([⟨⟨2024, 1, 1, 9 * Hour⟩, "s"⟩] ++
          ⟨⟨2024, 1, 1, 10 * Hour⟩, "s"⟩ :: [⟨⟨2024, 1, 1, 12 * Hour⟩, "e"⟩]) =
      calcNotices
        ([⟨⟨2024, 1, 1, 9 * Hour⟩, "s"⟩] ++ [⟨⟨2024, 1, 1, 12 * Hour⟩, "e"⟩]) :=
  C6_dup_start_ignored [⟨⟨2024, 1, 1, 9 * Hour⟩, "s"⟩]
    [⟨⟨2024, 1, 1, 12 * Hour⟩, "e"⟩] ⟨⟨2024, 1, 1, 10 * Hour⟩, "s"⟩
    false zeroTime rfl (by decide)

/-- C9: events whose tag is neither `"s"` nor `"e"` are skipped silently
(no state change, no diagnostic), and the result equals that of the
sequence with all such events removed. -/
theorem C9_unknown_tag_skipped (es : List entry) (today : Bool) (now : Time) :
    (∀ (st : WtState) (e : entry), e.type ≠ "s" → e.type ≠ "e" →
      stepWt st e = st) ∧
    calcWorktime es today now =
      calcWorktime (es.filter (fun e => e.type == "s" || e.type == "e"))
        today now ∧
    calcNotices es =
      calcNotices (es.filter (fun e => e.type == "s" || e.type == "e")) := by
  refine ⟨stepWt_junk, ?_, ?_⟩
  · unfold calcWorktime
    rw [foldl_stepWt_filter_tags es initWtState]
  · unfold calcNotices
    rw [foldl_stepWt_filter_tags es initWtState]

/-- Witness for C9: an event tagged `"x"` between a 09:00 Start and a 12:00
End changes nothing. -/
theorem C9_unknown_tag_skipped_witness :
    (∀ (st : WtState) (e : entry), e.type ≠ "s" → e.type ≠ "e" →
      stepWt st e = st) ∧
    calcWorktime
        [⟨⟨2024, 1, 1, 9 * Hour⟩, "s"⟩, ⟨⟨2024, 1, 1, 10 * Hour⟩, "x"⟩,
         ⟨⟨2024, 1, 1, 12 * Hour⟩, "e"⟩] false zeroTime =
      calcWorktime
        (([⟨⟨2024, 1, 1, 9 * Hour⟩, "s"⟩, ⟨⟨2024, 1, 1, 10 * Hour⟩, "x"⟩,
           ⟨⟨2024, 1, 1, 12 * Hour⟩, "e"⟩] : List entry).filter
          (fun e => e.type == "s" || e.type == "e")) false zeroTime ∧
    calcNotices
        [⟨⟨2024, 1, 1, 9 * Hour⟩, "s"⟩, ⟨⟨2024, 1, 1, 10 * Hour⟩, "x"⟩,
         ⟨⟨2024, 1, 1, 12 * Hour⟩, "e"⟩] =
      calcNotices
        (([⟨⟨2024, 1, 1, 9 * Hour⟩, "s"⟩, ⟨⟨2024, 1, 1, 10 * Hour⟩, "x"⟩,
           ⟨⟨2024, 1, 1, 12 * Hour⟩, "e"⟩] : List entry).filter
          (fun e => e.type == "s" || e.type == "e")) :=
  C9_unknown_tag_skipped
    [⟨⟨2024, 1, 1, 9 * Hour⟩, "s"⟩, ⟨⟨2024, 1, 1, 10 * Hour⟩, "x"⟩,
     ⟨⟨2024, 1, 1, 12 * Hour⟩, "e"⟩] false zeroTime


/-- Running `calcWorktime` on an alternating pair sequence with one trailing Start:
the pair sum plus (now − last Start) on the ongoing day, zero otherwise. -/
theorem calcWorktime_trailing (ps : List (Time × Time)) (s : Time)
    (today : Bool) (now : Time) :
    calcWorktime (pairEvents ps ++ [(⟨s, "s"⟩ : entry)]) today now =
      if today then pairSum ps + (now.abs - s.abs) else 0 := by
  unfold calcWorktime
  rw [foldl_stepWt_trailing]
  cases today <;> simp [Time.sub]

/-- Counterexample to C4 as stated: the sequence 12:00 Start, 09:00 End is
well-formed (strictly alternating, no trailing Start) yet `calcWorktime`
returns minus three hours, which is negative. Timestamps only need to be
appended in order, not chronological, so a back-dated End produces this. -/
theorem C4_counterexample :
    calcWorktime
        (wfEvents [(⟨2024, 1, 1, 12 * Hour⟩, ⟨2024, 1, 1, 9 * Hour⟩)] none)
        false zeroTime = -(3 * Hour) ∧
    calcWorktime
        (wfEvents [(⟨2024, 1, 1, 12 * Hour⟩, ⟨2024, 1, 1, 9 * Hour⟩)] none)
        false zeroTime < 0 := by
  decide

/-- C4 (amended): a well-formed sequence returns a non-negative duration
for both flag values, provided each End is no earlier than its Start and,
when the flag is true and a Start is left open, the current time is no
earlier than that Start. -/
theorem C4_nonneg_amended (ps : List (Time × Time)) (tr : Option Time)
    (today : Bool) (now : Time)
    (hps : ∀ p ∈ ps, (p.1).abs ≤ (p.2).abs)
    (htr : today = true → ∀ s : Time, tr = some s → s.abs ≤ now.abs) :
    0 ≤ calcWorktime (wfEvents ps tr) today now := by
  have hsum := pairSum_nonneg ps hps
  cases tr with
  | none =>
    have h : wfEvents ps none = pairEvents ps := by simp [wfEvents]
    rw [h, calcWorktime_pairEvents]
    exact hsum
  | some s =>
    have hwf : wfEvents ps (some s) = pairEvents ps ++ [(⟨s, "s"⟩ : entry)] :=
      rfl
    rw [hwf, calcWorktime_trailing]
    cases today with
    | false => simp
    | true =>
      have hnow := htr rfl s rfl
      simp only [if_pos rfl]
      omega

/-- Witness for the amended C4: the day 09:00 Start, 12:00 End, 13:00 Start,
still ongoing at 14:00, has a non-negative total. -/
theorem C4_nonneg_amended_witness :
    (∀ p ∈ [((⟨2024, 1, 1, 9 * Hour⟩ : Time), (⟨2024, 1, 1, 12 * Hour⟩ : Time))],
      (p.1).abs ≤ (p.2).abs) ∧
    0 ≤ calcWorktime
        (wfEvents [(⟨2024, 1, 1, 9 * Hour⟩, ⟨2024, 1, 1, 12 * Hour⟩)]
          (some ⟨2024, 1, 1, 13 * Hour⟩)) true ⟨2024, 1, 1, 14 * Hour⟩ := by
  refine ⟨by decide, ?_⟩
  refine C4_nonneg_amended
    [(⟨2024, 1, 1, 9 * Hour⟩, ⟨2024, 1, 1, 12 * Hour⟩)]
    (some ⟨2024, 1, 1, 13 * Hour⟩) true ⟨2024, 1, 1, 14 * Hour⟩
    (by decide) ?_
  intro h s hs
  injection hs with h2
  subst h2
  decide

/- ## Day bucketing and the all-days report (`calcWorktimeAll`) -/

/-- One iteration of the bucketing loop: Go's
`day, ok := dayEntries[date]; if !ok { day = [] }; day = append(day, e);
dayEntries[date] = day`, on an association-list model of the map. -/
def insertDay (m : List (Date × List entry)) (d : Date) (e : entry) :
    List (Date × List entry) :=
  match m with
  | [] => [(d, [e])]
  | (k, v) :: rest =>
      if k = d then (k, v ++ [e]) :: rest else (k, v) :: insertDay rest d e

/-- The `dayEntries` map after the bucketing loop of `calcWorktimeAll`. -/
def dayEntries (entries : List entry) : List (Date × List entry) :=
  entries.foldl (fun m e => insertDay m (dateKey e.Timestamp) e) []

/-- Go's `dayEntries[d]` (the empty list for an absent key). -/
def lookupDay (m : List (Date × List entry)) (d : Date) : List entry :=
  match m with
  | [] => []
  | (k, v) :: rest => if k = d then v else lookupDay rest d

/-- The sorted `days` slice of `calcWorktimeAll`: the map's keys in the
order `sort.Strings` produces. -/
def days (entries : List entry) : List Date :=
  ((dayEntries entries).map Prod.fst).mergeSort dateLe

/-- What the all-days report prints: one line per date (`none` standing for
"No end entry"), the `expected`, the actual `sum`, their difference, and the
complete-day count. -/
structure AllReport where
  lines : List (Date × Option Int)
  sum : Int
  dayCount : Nat
  expected : Int
  diff : Int
deriving DecidableEq, Repr

/-- One iteration of the reporting loop of `calcWorktimeAll`, accumulating
(sum, dayCount, printed lines). -/
def stepDay (m : List (Date × List entry)) (now : Time)
    (acc : Int × Nat × List (Date × Option Int)) (d : Date) :
    Int × Nat × List (Date × Option Int) :=
  let wt := calcWorktime (lookupDay m d) false now
  if wt = 0 then (acc.1, acc.2.1, acc.2.2 ++ [(d, none)])
  else (acc.1 + wt, acc.2.1 + 1, acc.2.2 ++ [(d, some wt)])

/-- Model of Go `calcWorktimeAll`. The `now` argument is the ambient clock,
which the day computations never consult since they pass `today = false`. -/
def calcWorktimeAll (entries : List entry) (now : Time) : AllReport :=
  let m := dayEntries entries
  let ds := (m.map Prod.fst).mergeSort dateLe
  let r := ds.foldl (stepDay m now) (0, 0, [])
  let expected := Hour * 8 * (r.2.1 : Int)
  { lines := r.2.2, sum := r.1, dayCount := r.2.1,
    expected := expected, diff := r.1 - expected }

/- ## Mutation commands -/

/-- Model of Go `addStartEntry`: the list that gets persisted. `ts` is the
new event's timestamp (the current instant, or today's date combined with an
explicitly supplied time of day). -/
def addStartEntry (entries : List entry) (ts : Time) : List entry :=
  entries ++ [⟨ts, "s"⟩]

/-- Model of Go `addEndEntry`, analogous to `addStartEntry`. -/
def addEndEntry (entries : List entry) (ts : Time) : List entry :=
  entries ++ [⟨ts, "e"⟩]

/-- C8: recording a start or an end persists exactly the loaded list plus
one appended event of the matching kind; every existing position is
untouched. -/
theorem C8_append_one_event (es : List entry) (ts : Time) :
    (addStartEntry es ts).length = es.length + 1 ∧
    (addStartEntry es ts).take es.length = es ∧
    (addStartEntry es ts).drop es.length = [⟨ts, "s"⟩] ∧
    (addEndEntry es ts).length = es.length + 1 ∧
    (addEndEntry es ts).take es.length = es ∧
    (addEndEntry es ts).drop es.length = [⟨ts, "e"⟩] := by
  unfold addStartEntry addEndEntry
  refine ⟨by simp, ?_, ?_, by simp, ?_, ?_⟩
  · exact List.take_left es _
  · exact List.drop_left es _
  · exact List.take_left es _
  · exact List.drop_left es _

/- ## Bucketing lemmas -/

theorem lookupDay_insertDay (m : List (Date × List entry)) (d d' : Date)
    (e : entry) :
    lookupDay (insertDay m d e) d' =
      if d' = d then lookupDay m d' ++ [e] else lookupDay m d' := by
  induction m with
  | nil =>
    by_cases h : d' = d
    · subst h
      simp [insertDay, lookupDay]
    · have h2 : ¬ d = d' := fun hh => h hh.symm
      simp [insertDay, lookupDay, h, h2]
  | cons kv rest ih =>
    obtain ⟨k, v⟩ := kv
    by_cases hk : k = d
    · subst hk
      by_cases h' : k = d'
      · subst h'
        simp [insertDay, lookupDay]
      · have h2 : ¬ d' = k := fun hh => h' hh.symm
        simp [insertDay, lookupDay, h', h2]
    · by_cases h' : k = d'
      · subst h'
        simp [insertDay, lookupDay, hk]
      · simp [insertDay, lookupDay, hk, h', ih]

theorem lookupDay_foldl_insert (es : List entry)
    (m : List (Date × List entry)) (d : Date) :
    lookupDay (es.foldl (fun m e => insertDay m (dateKey e.Timestamp) e) m) d =
      lookupDay m d ++ es.filter (fun e => dateKey e.Timestamp = d) := by
  induction es generalizing m with
  | nil => simp
  | cons e es ih =>
    simp only [List.foldl_cons, List.filter_cons]
    rw [ih, lookupDay_insertDay]
    by_cases h : dateKey e.Timestamp = d
    · rw [if_pos h.symm, if_pos (by simp [h]), List.append_assoc,
        List.singleton_append]
    · rw [if_neg (fun hh => h hh.symm), if_neg (by simp [h])]

/-- Each bucket of the finished map holds exactly the events of its date, in
their original relative order. -/
theorem lookupDay_dayEntries (es : List entry) (d : Date) :
    lookupDay (dayEntries es) d =
      es.filter (fun e => dateKey e.Timestamp = d) := by
  unfold dayEntries
  rw [lookupDay_foldl_insert]
  rfl

theorem keys_insertDay (m : List (Date × List entry)) (d : Date) (e : entry) :
    (insertDay m d e).map Prod.fst =
      if d ∈ m.map Prod.fst then m.map Prod.fst
      else m.map Prod.fst ++ [d] := by
  induction m with
  | nil => simp [insertDay]
  | cons kv rest ih =>
    obtain ⟨k, v⟩ := kv
    by_cases hk : k = d
    · subst hk
      simp [insertDay]
    · simp only [insertDay, if_neg hk, List.map_cons, ih]
      by_cases hd : d ∈ rest.map Prod.fst
      · rw [if_pos hd, if_pos (List.mem_cons.mpr (Or.inr hd))]
      · have h5 : ¬ d ∈ k :: rest.map Prod.fst := by
          intro hmem
          rcases List.mem_cons.mp hmem with hh | hh
          · exact hk hh.symm
          · exact hd hh
        rw [if_neg hd, if_neg h5, List.cons_append]

theorem mem_keys_foldl (es : List entry) (m : List (Date × List entry))
    (d : Date) :
    (d ∈ (es.foldl (fun m e => insertDay m (dateKey e.Timestamp) e) m).map
        Prod.fst) ↔
      d ∈ m.map Prod.fst ∨ ∃ e ∈ es, dateKey e.Timestamp = d := by
  induction es generalizing m with
  | nil => simp
  | cons e es ih =>
    simp only [List.foldl_cons]
    rw [ih, keys_insertDay]
    by_cases h : dateKey e.Timestamp ∈ m.map Prod.fst
    · rw [if_pos h]
      constructor
      · rintro (hc | hc)
        · exact Or.inl hc
        · obtain ⟨x, hx, hdx⟩ := hc
          exact Or.inr ⟨x, List.mem_cons_of_mem _ hx, hdx⟩
      · rintro (hc | hc)
        · exact Or.inl hc
        · obtain ⟨x, hx, hdx⟩ := hc
          rcases List.mem_cons.mp hx with hx | hx
          · subst hx
            exact Or.inl (hdx ▸ h)
          · exact Or.inr ⟨x, hx, hdx⟩
    · rw [if_neg h]
      rw [List.mem_append, List.mem_singleton]
      constructor
      · rintro ((hc | hc) | hc)
        · exact Or.inl hc
        · exact Or.inr ⟨e, List.mem_cons_self _ _, hc.symm⟩
        · obtain ⟨x, hx, hdx⟩ := hc
          exact Or.inr ⟨x, List.mem_cons_of_mem _ hx, hdx⟩
      · rintro (hc | hc)
        · exact Or.inl (Or.inl hc)
        · obtain ⟨x, hx, hdx⟩ := hc
          rcases List.mem_cons.mp hx with hx | hx
          · subst hx
            exact Or.inl (Or.inr hdx.symm)
          · exact Or.inr ⟨x, hx, hdx⟩

theorem nodup_keys_foldl (es : List entry) (m : List (Date × List entry))
    (h : (m.map Prod.fst).Nodup) :
    ((es.foldl (fun m e => insertDay m (dateKey e.Timestamp) e) m).map
      Prod.fst).Nodup := by
  induction es generalizing m with
  | nil => exact h
  | cons e es ih =>
    simp only [List.foldl_cons]
    apply ih
    rw [keys_insertDay]
    by_cases hd : dateKey e.Timestamp ∈ m.map Prod.fst
    · rwa [if_pos hd]
    · rw [if_neg hd, List.nodup_append]
      refine ⟨h, List.nodup_singleton _, ?_⟩
      intro a ha hae
      rw [List.mem_singleton] at hae
      subst hae
      exact hd ha

theorem dateLe_trans (a b c : Date) (h1 : dateLe a b = true)
    (h2 : dateLe b c = true) : dateLe a c = true := by
  simp only [dateLe, Bool.or_eq_true, Bool.and_eq_true, Nat.blt_eq,
    Nat.ble_eq, beq_iff_eq] at h1 h2 ⊢
  omega

theorem dateLe_total (a b : Date) : (dateLe a b || dateLe b a) = true := by
  simp only [dateLe, Bool.or_eq_true, Bool.and_eq_true, Nat.blt_eq,
    Nat.ble_eq, beq_iff_eq]
  omega

/-- The keys of the finished bucket map are exactly the dates occurring in
the input. -/
theorem mem_days (es : List entry) (d : Date) :
    d ∈ days es ↔ ∃ e ∈ es, dateKey e.Timestamp = d := by
  unfold days dayEntries
  rw [(List.mergeSort_perm _ dateLe).mem_iff, mem_keys_foldl]
  simp

/-- Summing the sizes of the per-date filters over a duplicate-free list of
dates covering every event recovers the total number of events. -/
theorem sum_filter_lengths (ds : List Date) (es : List entry)
    (hnd : ds.Nodup) (hcov : ∀ e ∈ es, dateKey e.Timestamp ∈ ds) :
    (ds.map (fun d =>
      (es.filter (fun e => dateKey e.Timestamp = d)).length)).sum =
      es.length := by
  induction ds generalizing es with
  | nil =>
    cases es with
    | nil => simp
    | cons e es => exact absurd (hcov e (List.mem_cons_self _ _)) (by simp)
  | cons d ds ih =>
    have hnd' : ds.Nodup := hnd.of_cons
    have hdd : d ∉ ds := by
      intro hc
      exact (List.nodup_cons.mp hnd).1 hc
    have hsplit :
        es.length = (es.filter (fun e => dateKey e.Timestamp = d)).length +
          (es.filter (fun e => ¬ dateKey e.Timestamp = d)).length := by
      rw [← List.countP_eq_length_filter, ← List.countP_eq_length_filter]
      simpa using List.length_eq_countP_add_countP
        (fun e => decide (dateKey e.Timestamp = d)) es
    have hcov' : ∀ e ∈ es.filter (fun e => ¬ dateKey e.Timestamp = d),
        dateKey e.Timestamp ∈ ds := by
      intro e he
      obtain ⟨hes, hne⟩ := List.mem_filter.mp he
      have := hcov e hes
      rcases List.mem_cons.mp this with hh | hh
      · exact absurd hh (by simpa using hne)
      · exact hh
    have hmap : ∀ d' ∈ ds,
        (es.filter (fun e => dateKey e.Timestamp = d')).length =
          ((es.filter (fun e => ¬ dateKey e.Timestamp = d)).filter
            (fun e => dateKey e.Timestamp = d')).length := by
      intro d' hd'
      have hdd' : ¬ d' = d := fun hh => hdd (hh ▸ hd')
      rw [List.filter_filter]
      congr 1
      apply List.filter_congr
      intro e _
      by_cases he : dateKey e.Timestamp = d'
      · have hnot : ¬ dateKey e.Timestamp = d :=
          fun hh => hdd' (he.symm.trans hh)
        simp [he, hnot, hdd']
      · simp [he]
    rw [List.map_cons, List.sum_cons,
      List.map_congr_left hmap,
      ih (es.filter (fun e => ¬ dateKey e.Timestamp = d)) hnd' hcov',
      hsplit]

/-- C7: the bucketing step of the all-days report partitions the events by
calendar date — each bucket is exactly the in-order sub-sequence of events
of its date, the reported date list has no duplicates, is ascending in the
lexicographic date order, contains exactly the dates that occur, and the
bucket sizes add up to the number of events. -/
theorem C7_bucket_partition (es : List entry) :
    (∀ d : Date, lookupDay (dayEntries es) d =
      es.filter (fun e => dateKey e.Timestamp = d)) ∧
    (days es).Nodup ∧
    (days es).Pairwise (fun a b => dateLe a b = true) ∧
    (∀ d : Date, d ∈ days es ↔ ∃ e ∈ es, dateKey e.Timestamp = d) ∧
    ((days es).map (fun d => (lookupDay (dayEntries es) d).length)).sum =
      es.length := by
  have hnd : (days es).Nodup := by
    unfold days dayEntries
    rw [(List.mergeSort_perm _ dateLe).nodup_iff]
    exact nodup_keys_foldl es [] (by simp)
  refine ⟨lookupDay_dayEntries es, hnd, ?_, mem_days es, ?_⟩
  · exact List.sorted_mergeSort dateLe_trans dateLe_total _
  · 
    have hcov : ∀ e ∈ es, dateKey e.Timestamp ∈ days es := by
      intro e he
      exact (mem_days es _).mpr ⟨e, he, rfl⟩
    calc ((days es).map
          (fun d => (lookupDay (dayEntries es) d).length)).sum
        = ((days es).map (fun d =>
            (es.filter (fun e => dateKey e.Timestamp = d)).length)).sum := by
          apply congrArg
          apply List.map_congr_left
          intro d _
          rw [lookupDay_dayEntries]
      _ = es.length := sum_filter_lengths (days es) es hnd hcov

/-- Closed form of the reporting loop of `calcWorktimeAll`: starting from an
arbitrary accumulator, it adds the non-zero day totals, counts them, and
emits one line per date (`none` for a zero total). -/
theorem foldl_stepDay (m : List (Date × List entry)) (now : Time)
    (ds : List Date) (s0 : Int) (c0 : Nat) (L0 : List (Date × Option Int)) :
    ds.foldl (stepDay m now) (s0, c0, L0) =
      (s0 + ((ds.filter (fun d =>
            ¬ calcWorktime (lookupDay m d) false now = 0)).map
          (fun d => calcWorktime (lookupDay m d) false now)).sum,
       c0 + (ds.filter (fun d =>
            ¬ calcWorktime (lookupDay m d) false now = 0)).length,
       L0 ++ ds.map (fun d =>
          (d, if calcWorktime (lookupDay m d) false now = 0 then none
              else some (calcWorktime (lookupDay m d) false now)))) := by
  induction ds generalizing s0 c0 L0 with
  | nil => simp
  | cons d ds ih =>
    simp only [List.foldl_cons, List.filter_cons, List.map_cons]
    by_cases h : calcWorktime (lookupDay m d) false now = 0
    · have hstep : stepDay m now (s0, c0, L0) d =
          (s0, c0, L0 ++ [(d, none)]) := by
        simp [stepDay, h]
      rw [hstep, ih]
      simp [h, List.append_assoc]
    · have hstep : stepDay m now (s0, c0, L0) d =
          (s0 + calcWorktime (lookupDay m d) false now, c0 + 1,
            L0 ++ [(d, some (calcWorktime (lookupDay m d) false now))]) := by
        simp [stepDay, h]
      rw [hstep, ih]
      refine Prod.ext ?_ (Prod.ext ?_ ?_)
      · simp [h]
        ring
      · simp [h]
        omega
      · simp [h, List.append_assoc]

/-- C3: in the all-days report a day is shown as "No end entry" exactly when
its bucket's `calcWorktime` (not ongoing) is zero, and exactly those days
are left out of the total and the complete-day count; otherwise the day's
duration is accumulated and counted. The expected total is 8 hours times
the complete-day count, and the reported difference is the actual total
minus the expected total. -/
theorem C3_all_days_report (es : List entry) (now : Time) :
    (calcWorktimeAll es now).lines =
      (days es).map (fun d =>
        (d, if calcWorktime (lookupDay (dayEntries es) d) false now = 0
            then none
            else some (calcWorktime (lookupDay (dayEntries es) d) false now))) ∧
    (calcWorktimeAll es now).sum =
      (((days es).filter (fun d =>
          ¬ calcWorktime (lookupDay (dayEntries es) d) false now = 0)).map
        (fun d => calcWorktime (lookupDay (dayEntries es) d) false now)).sum ∧
    (calcWorktimeAll es now).dayCount =
      ((days es).filter (fun d =>
        ¬ calcWorktime (lookupDay (dayEntries es) d) false now = 0)).length ∧
    (calcWorktimeAll es now).expected =
      Hour * 8 * ((calcWorktimeAll es now).dayCount : Int) ∧
    (calcWorktimeAll es now).diff =
      (calcWorktimeAll es now).sum - (calcWorktimeAll es now).expected := by
  have hall : calcWorktimeAll es now =
      { lines := (days es).map (fun d =>
          (d, if calcWorktime (lookupDay (dayEntries es) d) false now = 0
              then none
              else some (calcWorktime (lookupDay (dayEntries es) d)
                false now))),
        sum := (((days es).filter (fun d =>
            ¬ calcWorktime (lookupDay (dayEntries es) d) false now = 0)).map
          (fun d => calcWorktime (lookupDay (dayEntries es) d) false now)).sum,
        dayCount := ((days es).filter (fun d =>
          ¬ calcWorktime (lookupDay (dayEntries es) d) false now = 0)).length,
        expected := Hour * 8 * (((days es).filter (fun d =>
          ¬ calcWorktime (lookupDay (dayEntries es) d) false now = 0)).length :
            Int),
        diff := (((days es).filter (fun d =>
            ¬ calcWorktime (lookupDay (dayEntries es) d) false now = 0)).map
          (fun d => calcWorktime (lookupDay (dayEntries es) d) false now)).sum -
          Hour * 8 * (((days es).filter (fun d =>
            ¬ calcWorktime (lookupDay (dayEntries es) d) false now = 0)).length :
              Int) } := by
    simp only [calcWorktimeAll]
    rw [foldl_stepDay]
    have hds : ((dayEntries es).map Prod.fst).mergeSort dateLe = days es := rfl
    rw [hds]
    simp
  rw [hall]
  exact ⟨rfl, rfl, rfl, rfl, rfl⟩
